import Mathlib

/-!
Verification of the semantic-integration-engine embedding and
vector-collection gateway.

Part 1 models the hash embedder of
src/main/python/embedding/model.py and the batch endpoint of
src/main/python/embedding/app.py.  Python strings are modelled as
lists of characters; machine floats are modelled as exact rationals;
an uncaught Python exception is modelled as the `none` outcome of an
`Option`-valued function.  The SHA-256 digest computed by `hashlib`
is an external library call and is passed in as a parameter
`digest : PyStr → List Nat`; the theorems carry the one fact the code
relies on, namely that a SHA-256 digest has exactly 32 bytes.

Part 2 models the collection gateway of
src/main/python/embedding/chroma_server.py.  The underlying Chroma
vector index is an external collaborator; its capability contract
(get, get-or-create, delete, count, add, delete-by-id, query) is
modelled from the specification, section 6, while each endpoint
function is translated from the gateway source.
-/

/-- Python strings modelled as lists of characters. -/
abbrev PyStr := List Char

/-- `EMBED_DIM` from model.py. -/
def EMBED_DIM : Nat := 128

/-- Helper for `pySplit`: accumulates the current word (reversed) while
scanning; whitespace ends the current word and never yields an empty
token, matching Python's argumentless `str.split`. -/
def wordsAux (cur : PyStr) : PyStr → List PyStr
  | [] => if cur.isEmpty then [] else [cur.reverse]
  | c :: cs =>
    if c.isWhitespace then
      if cur.isEmpty then wordsAux [] cs else cur.reverse :: wordsAux [] cs
    else wordsAux (c :: cur) cs

/-- Python `text.split()`: split on runs of whitespace, dropping empty
tokens. -/
def pySplit (s : PyStr) : List PyStr := wordsAux [] s

/-- The inner loop `for i in range(EMBED_DIM): vec[i] += h[i] / 255.0`
of `compute_embedding`.  The fuel argument counts the remaining
iterations and `i` is the current index; `h[i]?` models the Python
indexing `h[i]`, whose out-of-range case raises IndexError
(modelled as `none`). -/
def addTokenGo (h : List Nat) (vec : List ℚ) (i : Nat) : Nat → Option (List ℚ)
  | 0 => some vec
  | n + 1 =>
    match h[i]? with
    | none => none
    | some b => addTokenGo h (vec.set i (vec.getD i 0 + (b : ℚ) / 255)) (i + 1) n

/-- One token's accumulation pass over all `EMBED_DIM` output indices,
as the code writes it. -/
def addToken (h : List Nat) (vec : List ℚ) : Option (List ℚ) :=
  addTokenGo h vec 0 EMBED_DIM

/-- Squared Euclidean norm of the accumulator; the code's test
`norm > 0` on `np.linalg.norm(vec)` holds exactly when
`0 < normSq vec`. -/
def normSq (v : List ℚ) : ℚ := (v.map fun x => x * x).sum

/-- Result of `compute_embedding`.  The source's final step divides by
the (in general irrational) Euclidean norm; the result is represented
exactly: `pre` is the accumulator before normalization, and
`unit = true` records that the normalization branch was taken, so
component `i` of the returned float vector equals `pre` at `i` divided
by the Euclidean norm of `pre`; `unit = false` means `pre` is returned
unchanged. -/
structure EmbedResult where
  pre : List ℚ
  unit : Bool
deriving DecidableEq

/-- `compute_embedding` from model.py: zero accumulator of length
`EMBED_DIM`, one `addToken` pass per whitespace token, then the
norm test; `none` models an uncaught Python exception. -/
def compute_embedding (digest : PyStr → List Nat) (text : PyStr) : Option EmbedResult :=
  match (pySplit text).foldlM (fun v t => addToken (digest t) v) (List.replicate EMBED_DIM (0 : ℚ)) with
  | none => none
  | some acc => if 0 < normSq acc then some ⟨acc, true⟩ else some ⟨acc, false⟩

/-- Modelled from the spec: the per-token accumulation step as the
specification states it — add digest byte `i mod 32` over 255 to
accumulator `i`, the 32-byte digest cyclically repeated.  Written for
comparison with `addToken`, which is translated from the code. -/
def specAddToken (h : List Nat) (vec : List ℚ) : List ℚ :=
  vec.mapIdx fun i x => x + (h.getD (i % 32) 0 : ℚ) / 255

/-- The `/v1/embeddings` endpoint body from app.py:
`embs = [compute_embedding(t) for t in req.texts]`; an exception
raised by any element propagates out of the comprehension. -/
def app_embeddings (digest : PyStr → List Nat) : List PyStr → Option (List EmbedResult)
  | [] => some []
  | t :: ts =>
    match compute_embedding digest t with
    | none => none
    | some v =>
      match app_embeddings digest ts with
      | none => none
      | some vs => some (v :: vs)

/-- Metadata values: the JSON scalars the gateway actually stores. -/
inductive MVal where
  | b (v : Bool)
  | s (v : String)
  | n (v : ℚ)
deriving DecidableEq

/-- A metadata mapping, insertion-ordered. -/
abbrev Metadata := List (String × MVal)

/-- `DEFAULT_COLLECTION_METADATA` from chroma_server.py: the single
key `initialized` mapped to `true`. -/
def DEFAULT_COLLECTION_METADATA : Metadata := [("initialized", MVal.b true)]

/-- A stored document. -/
structure Doc where
  id : String
  text : Option String
  metadata : Metadata
  embedding : Option (List ℚ)
deriving DecidableEq

/-- A named collection's contents: collection metadata plus its
insertion-ordered documents. -/
structure Collection where
  metadata : Metadata
  docs : List Doc
deriving DecidableEq

/-- State of the external vector index: insertion-ordered named
collections, plus a reachability flag modelling backend-unreachable
faults (every index call fails while `reachable` is false). -/
structure IndexState where
  collections : List (String × Collection)
  reachable : Bool
deriving DecidableEq

/-- Look a collection up by name. -/
def lookupCol (s : IndexState) (name : String) : Option Collection :=
  (s.collections.find? fun p => p.1 == name).map Prod.snd

/-- Whether the named collection is present in the index. -/
def presentIn (s : IndexState) (name : String) : Bool :=
  (lookupCol s name).isSome

/-- Modelled from the spec: `get_collection(name) -> handle |
not_found_error` of the external index capability. -/
def getCollection (s : IndexState) (name : String) : Except String Collection :=
  if s.reachable then
    match lookupCol s name with
    | some c => .ok c
    | none => .error "collection not found"
  else .error "index unreachable"

/-- Modelled from the spec: `get_or_create_collection(name, metadata)`
of the external index capability; a fresh collection receives the
supplied metadata and no documents. -/
def getOrCreateCollection (s : IndexState) (name : String) (md : Metadata) :
    Except String (Collection × IndexState) :=
  if s.reachable then
    match lookupCol s name with
    | some c => .ok (c, s)
    | none => .ok (⟨md, []⟩, ⟨s.collections ++ [(name, ⟨md, []⟩)], s.reachable⟩)
  else .error "index unreachable"

/-- Modelled from the spec: `delete_collection(name) -> ok |
not_found_error` of the external index capability. -/
def deleteCollectionIdx (s : IndexState) (name : String) : Except String IndexState :=
  if s.reachable then
    if presentIn s name then
      .ok ⟨s.collections.filter fun p => p.1 != name, s.reachable⟩
    else .error "collection not found"
  else .error "index unreachable"

/-- Store an updated collection value under an existing name. -/
def setCol (s : IndexState) (name : String) (c : Collection) : IndexState :=
  ⟨s.collections.map fun p => if p.1 == name then (p.1, c) else p, s.reachable⟩

/-- Upsert into the insertion-ordered document list (spec, section 3:
adding an existing id overwrites it). -/
def upsertDoc (docs : List Doc) (d : Doc) : List Doc :=
  if docs.any fun e => e.id == d.id then
    docs.map fun e => if e.id == d.id then d else e
  else docs ++ [d]

/-- Head of an optional embeddings batch. -/
def embHead : Option (List (List ℚ)) → Option (List ℚ)
  | none => none
  | some es => es.head?

/-- Tail of an optional embeddings batch. -/
def embTail : Option (List (List ℚ)) → Option (List (List ℚ))
  | none => none
  | some es => some es.tail

/-- Documents assembled from parallel id, text and metadata lists plus
an optional embeddings batch. -/
def buildDocs : List String → List String → List Metadata →
    Option (List (List ℚ)) → List Doc
  | i :: is, t :: ts, m :: ms, embs =>
    ⟨i, some t, m, embHead embs⟩ :: buildDocs is ts ms (embTail embs)
  | _, _, _, _ => []

/-- Length check for an optional embeddings batch. -/
def embLenOk : Option (List (List ℚ)) → Nat → Prop
  | none, _ => True
  | some es, k => es.length = k

instance (embs : Option (List (List ℚ))) (k : Nat) : Decidable (embLenOk embs k) := by
  cases embs <;> simp [embLenOk] <;> infer_instance

/-- Modelled from the spec: `handle.add(ids, documents, metadatas,
embeddings)` of the external index capability — validates the call
preconditions of section 4.2 (equal lengths, ids unique within the
call) and upserts every document. -/
def colAdd (c : Collection) (ids texts : List String) (metas : List Metadata)
    (embs : Option (List (List ℚ))) : Except String Collection :=
  if ids.length = texts.length ∧ ids.length = metas.length ∧
      embLenOk embs ids.length ∧ ids.Nodup then
    .ok ⟨c.metadata, (buildDocs ids texts metas embs).foldl upsertDoc c.docs⟩
  else .error "invalid add request"

/-- Modelled from the spec: `handle.delete(ids)` of the external index
capability — deletion of a nonexistent id is a success with zero
effect. -/
def colDelete (c : Collection) (ids : List String) : Collection :=
  ⟨c.metadata, c.docs.filter fun d => !(ids.contains d.id)⟩

/-- Modelled from the spec: `handle.count()` of the external index
capability. -/
def colCount (c : Collection) : Nat := c.docs.length

/-- A query request body (`QueryRequest` in chroma_server.py). -/
structure QueryReq where
  query_texts : Option (List String)
  query_embeddings : Option (List (List ℚ))
  n_results : Nat
deriving DecidableEq

/-- Modelled from the spec: `handle.query` of the external index
capability.  The ranked result content is produced by the external
index and is not modelled; only success or failure is.  A query
carrying neither texts nor embeddings signals a usage error. -/
def colQuery (_c : Collection) (req : QueryReq) : Except String Unit :=
  if req.query_texts.isNone ∧ req.query_embeddings.isNone then
    .error "no query content"
  else .ok ()

/-- Whether an endpoint outcome is the hard-error path
(`HTTPException` in the source). -/
def isHardError {α : Type} : Except String α → Bool
  | .error _ => true
  | .ok _ => false

/-- Response of the exists endpoint. -/
structure ExistsResp where
  exists' : Bool
  error : Option String
deriving DecidableEq

/-- `collection_exists` endpoint: `get_collection` inside try/except;
any lookup failure is reported as `exists = false` with a diagnostic,
never raised. -/
def collection_exists (s : IndexState) (name : String) : ExistsResp × IndexState :=
  match getCollection s name with
  | .ok _ => (⟨true, none⟩, s)
  | .error e => (⟨false, some e⟩, s)

/-- `collection_count` endpoint: `get_collection` then `count`; a
failure becomes `HTTPException(500)`, modelled as the error side of
`Except`. -/
def collection_count (s : IndexState) (name : String) :
    Except String Nat × IndexState :=
  match getCollection s name with
  | .ok c => (.ok (colCount c), s)
  | .error e => (.error ("Count failed: " ++ e), s)

/-- Response of the create endpoint. -/
structure CreateResp where
  created : Bool
  error : Option String
deriving DecidableEq

/-- `collection_create` endpoint: `get_or_create_collection` with the
default collection metadata, inside try/except. -/
def collection_create (s : IndexState) (name : String) : CreateResp × IndexState :=
  match getOrCreateCollection s name DEFAULT_COLLECTION_METADATA with
  | .ok (_, s') => (⟨true, none⟩, s')
  | .error e => (⟨false, some e⟩, s)

/-- `collection_delete` endpoint: `delete_collection`; a failure
becomes `HTTPException(500)`. -/
def collection_delete (s : IndexState) (name : String) :
    Except String Unit × IndexState :=
  match deleteCollectionIdx s name with
  | .ok s' => (.ok (), s')
  | .error e => (.error ("Delete failed: " ++ e), s)

/-- Request body of the add endpoint (`AddDocumentsRequest`). -/
structure AddReq where
  ids : List String
  documents : List String
  metadatas : Option (List Metadata)
  embeddings : Option (List (List ℚ))
deriving DecidableEq

/-- Response of the add endpoint. -/
structure AddResp where
  status : String
  count : Nat
  error : Option String
deriving DecidableEq

/-- `collection_add` endpoint: get-or-create, synthesize one metadata
entry per document keyed by that document's id when `metadatas` is
omitted, then upsert; a failure returns a zero count plus a
diagnostic.  A failure after get-or-create keeps the created
collection, since in the source that index side effect has already
happened when the except clause runs. -/
def collection_add (s : IndexState) (name : String) (req : AddReq) :
    AddResp × IndexState :=
  match getOrCreateCollection s name DEFAULT_COLLECTION_METADATA with
  | .error e => (⟨"error", 0, some e⟩, s)
  | .ok (c, s') =>
    match colAdd c req.ids req.documents
        (match req.metadatas with
         | none => req.ids.map fun i => [("id", MVal.s i)]
         | some ms => ms)
        req.embeddings with
    | .ok c' => (⟨"ok", req.ids.length, none⟩, setCol s' name c')
    | .error e => (⟨"error", 0, some e⟩, s')

/-- Response of the delete-documents endpoint. -/
structure DeleteDocsResp where
  deleted : Nat
  error : Option String
deriving DecidableEq

/-- `collection_delete_docs` endpoint: get-or-create then delete by id
list; the reported count is the number of ids requested. -/
def collection_delete_docs (s : IndexState) (name : String) (ids : List String) :
    DeleteDocsResp × IndexState :=
  match getOrCreateCollection s name DEFAULT_COLLECTION_METADATA with
  | .error e => (⟨0, some e⟩, s)
  | .ok (c, s') => (⟨ids.length, none⟩, setCol s' name (colDelete c ids))

/-- Response of the query endpoint; `hasResults = false` models the
null results payload of the failure branch. -/
structure QueryResp where
  hasResults : Bool
  error : Option String
deriving DecidableEq

/-- `collection_query` endpoint: get-or-create then delegate to the
index query; failures return a null result plus a diagnostic. -/
def collection_query (s : IndexState) (name : String) (req : QueryReq) :
    QueryResp × IndexState :=
  match getOrCreateCollection s name DEFAULT_COLLECTION_METADATA with
  | .error e => (⟨false, some e⟩, s)
  | .ok (c, s') =>
    match colQuery c req with
    | .ok _ => (⟨true, none⟩, s')
    | .error e => (⟨false, some e⟩, s')

/-- Number of collections stored under a given name. -/
def countName (s : IndexState) (name : String) : Nat :=
  (s.collections.filter fun p => p.1 == name).length

/-- The document stored under an id inside a named collection. -/
def findDocIn (s : IndexState) (name i : String) : Option Doc :=
  match lookupCol s name with
  | none => none
  | some c => c.docs.find? fun d => d.id == i

/-- The per-operation collection state machine of the gateway at one
state and one name, with one concrete request per operation that takes
a body: the exists and count endpoints never change the state, and
count hard-errors on an absent collection; create, add, delete-docs
and query leave the collection present; delete hard-errors on an
absent collection, leaving the state unchanged, and is the only
operation taking a present collection to absent. -/
def GatewayStateMachine (s : IndexState) (name : String) (req : AddReq)
    (ids : List String) (q : QueryReq) : Prop :=
  (collection_exists s name).2 = s ∧
  (collection_count s name).2 = s ∧
  (presentIn s name = false → isHardError (collection_count s name).1 = true) ∧
  presentIn (collection_create s name).2 name = true ∧
  presentIn (collection_add s name req).2 name = true ∧
  presentIn (collection_delete_docs s name ids).2 name = true ∧
  presentIn (collection_query s name q).2 name = true ∧
  (presentIn s name = false →
    isHardError (collection_delete s name).1 = true ∧
      (collection_delete s name).2 = s) ∧
  (presentIn s name = true →
    presentIn (collection_delete s name).2 name = false)

/-- Idempotent create at one state and one name: both calls report
created with no error, the second call leaves the state of the first
unchanged, exactly one collection of the name remains, and a newly
created collection carries the default collection metadata. -/
def CreateIdempotent (s : IndexState) (name : String) : Prop :=
  (collection_create s name).1 = ⟨true, none⟩ ∧
  (collection_create (collection_create s name).2 name).1 = ⟨true, none⟩ ∧
  (collection_create (collection_create s name).2 name).2 =
    (collection_create s name).2 ∧
  countName (collection_create (collection_create s name).2 name).2 name = 1 ∧
  (presentIn s name = false →
    lookupCol (collection_create s name).2 name =
      some ⟨DEFAULT_COLLECTION_METADATA, []⟩)

/-- Synthesized metadata on add: with `metadatas` omitted the add
succeeds, reports the requested count, and every id of the call is
stored with the one-entry metadata mapping keyed by that id. -/
def AddDefaultMetadata (s : IndexState) (name : String)
    (ids texts : List String) : Prop :=
  (collection_add s name ⟨ids, texts, none, none⟩).1 = ⟨"ok", ids.length, none⟩ ∧
  ∀ i ∈ ids, ∃ d : Doc,
    findDocIn (collection_add s name ⟨ids, texts, none, none⟩).2 name i = some d ∧
    d.id = i ∧ d.metadata = [("id", MVal.s i)]

/-!
Helper lemmas about the embedder.
-/

/-- The inner loop reaches index 32 before the fuel runs out and
aborts there, because a 32-byte digest has no byte 32. -/
theorem addTokenGo_stop (h : List Nat) (hl : h.length = 32) :
    ∀ n i vec, i ≤ 32 → 32 < i + n → addTokenGo h vec i n = none := by
  intro n
  induction n with
  | zero => intro i vec h1 h2; omega
  | succ n ih =>
    intro i vec h1 h2
    rcases Nat.lt_or_ge i 32 with hlt | hge
    · obtain ⟨b, hb⟩ : ∃ b, h[i]? = some b :=
        ⟨_, List.getElem?_eq_getElem (by omega)⟩
      simp only [addTokenGo, hb]
      exact ih (i + 1) _ (by omega) (by omega)
    · have hi : i = 32 := by omega
      subst hi
      have hnone : h[(32 : Nat)]? = none := List.getElem?_eq_none (by omega)
      simp only [addTokenGo, hnone]

/-- A full per-token pass always aborts when the digest has 32
bytes. -/
theorem addToken_none (h : List Nat) (vec : List ℚ) (hl : h.length = 32) :
    addToken h vec = none :=
  addTokenGo_stop h hl EMBED_DIM 0 vec (by omega) (by decide)

/-- When the input splits into at least one token whose digest has 32
bytes, `compute_embedding` propagates the IndexError of the first
token's pass. -/
theorem compute_embedding_err (digest : PyStr → List Nat) (text t : PyStr)
    (ts : List PyStr) (hsp : pySplit text = t :: ts)
    (h32 : (digest t).length = 32) :
    compute_embedding digest text = none := by
  unfold compute_embedding
  rw [hsp]
  simp only [List.foldlM_cons]
  rw [addToken_none _ _ h32]
  rfl

/-- With zero tokens no hashing happens, the accumulator stays zero,
and the zero-norm branch returns it unchanged. -/
theorem compute_embedding_no_tokens (digest : PyStr → List Nat) (text : PyStr)
    (hsp : pySplit text = []) :
    compute_embedding digest text = some ⟨List.replicate EMBED_DIM 0, false⟩ := by
  unfold compute_embedding
  rw [hsp]
  simp [normSq]

/-- Splitting an all-whitespace string yields no tokens. -/
theorem wordsAux_ws : ∀ s : PyStr, (∀ c ∈ s, c.isWhitespace = true) →
    wordsAux [] s = [] := by
  intro s
  induction s with
  | nil => intro _; rfl
  | cons c cs ih =>
    intro h
    have hc : c.isWhitespace = true := h c (List.mem_cons_self c cs)
    simp only [wordsAux, hc, if_true, List.isEmpty_nil]
    exact ih fun x hx => h x (List.mem_cons_of_mem c hx)

/-!
Claims about the embedder.
-/

/-- Claim C1: the claim states that `compute_embedding` terminates
without error on every input and returns exactly 128 numbers.  The
code is wrong: its loop reads digest byte `i` for `i` up to 127 while
a SHA-256 digest has 32 bytes, so any input with at least one token —
here the single-character token a — raises IndexError instead of
returning a vector. -/
theorem C1_compute_embedding_raises_on_token (digest : PyStr → List Nat)
    (h32 : (digest ['a']).length = 32) :
    compute_embedding digest ['a'] = none :=
  compute_embedding_err digest ['a'] ['a'] [] (by decide) h32

/-- Witness for C1 at a concrete 32-byte digest function. -/
theorem C1_witness :
    ((fun _ : PyStr => List.replicate 32 0) ['a']).length = 32 ∧
    compute_embedding (fun _ : PyStr => List.replicate 32 0) ['a'] = none :=
  ⟨rfl, C1_compute_embedding_raises_on_token _ rfl⟩

/-- Claim C2: the claim states that for each token the code adds
digest byte `i mod 32` over 255 to accumulator `i`, cyclically
repeating the 32-byte digest over all 128 positions.  The code indexes
the digest without the mod, so the per-token pass aborts with
IndexError at index 32 and no cyclic accumulation ever happens; the
spec-described step `specAddToken`, by contrast, is total and
length-preserving. -/
theorem C2_no_cyclic_wraparound (h : List Nat) (vec : List ℚ)
    (hl : h.length = 32) :
    addToken h vec = none ∧ (specAddToken h vec).length = vec.length :=
  ⟨addToken_none h vec hl, by simp [specAddToken]⟩

/-- Witness for C2 at a concrete 32-byte digest and the zero
accumulator. -/
theorem C2_witness :
    (List.replicate 32 0).length = 32 ∧
    (addToken (List.replicate 32 0) (List.replicate EMBED_DIM 0) = none ∧
      (specAddToken (List.replicate 32 0) (List.replicate EMBED_DIM 0)).length =
        (List.replicate EMBED_DIM (0 : ℚ)).length) :=
  ⟨rfl, C2_no_cyclic_wraparound _ _ rfl⟩

/-- Claim C3: the claim states that every input with at least one
token yields a unit-norm vector and empty text yields the zero vector
unchanged.  The zero-token half holds, but for any tokenized input —
here the token hello — the code raises IndexError before the
normalization step is ever reached. -/
theorem C3_crash_precedes_normalization (digest : PyStr → List Nat)
    (h32 : (digest ['h', 'e', 'l', 'l', 'o']).length = 32) :
    compute_embedding digest ['h', 'e', 'l', 'l', 'o'] = none ∧
    compute_embedding digest [] = some ⟨List.replicate EMBED_DIM 0, false⟩ :=
  ⟨compute_embedding_err digest _ ['h', 'e', 'l', 'l', 'o'] [] (by decide) h32,
   compute_embedding_no_tokens digest [] (by decide)⟩

/-- Witness for C3 at a concrete 32-byte digest function. -/
theorem C3_witness :
    ((fun _ : PyStr => List.replicate 32 0) ['h', 'e', 'l', 'l', 'o']).length = 32 ∧
    (compute_embedding (fun _ : PyStr => List.replicate 32 0)
        ['h', 'e', 'l', 'l', 'o'] = none ∧
      compute_embedding (fun _ : PyStr => List.replicate 32 0) [] =
        some ⟨List.replicate EMBED_DIM 0, false⟩) :=
  ⟨rfl, C3_crash_precedes_normalization _ rfl⟩

/-- Claim C4: the claim states that inputs with equal token multisets
yield identical returned vectors.  On the cited example pair — the
texts a b and b a — the code returns no vector at all: both calls
raise IndexError at the first token's pass, for any 32-byte digest
function. -/
theorem C4_crash_on_reordered_pair (digest : PyStr → List Nat)
    (h32 : ∀ t : PyStr, (digest t).length = 32) :
    compute_embedding digest ['a', ' ', 'b'] = none ∧
    compute_embedding digest ['b', ' ', 'a'] = none :=
  ⟨compute_embedding_err digest _ ['a'] [['b']] (by decide) (h32 _),
   compute_embedding_err digest _ ['b'] [['a']] (by decide) (h32 _)⟩

/-- Witness for C4 at a concrete 32-byte digest function. -/
theorem C4_witness :
    (∀ t : PyStr, ((fun _ : PyStr => List.replicate 32 0) t).length = 32) ∧
    (compute_embedding (fun _ : PyStr => List.replicate 32 0) ['a', ' ', 'b'] = none ∧
      compute_embedding (fun _ : PyStr => List.replicate 32 0) ['b', ' ', 'a'] = none) :=
  ⟨fun _ => rfl, C4_crash_on_reordered_pair _ fun _ => rfl⟩

/-- Claim C9: the claim states that the batch endpoint maps N texts to
N vectors in order and the empty batch to the empty batch.  The empty
half holds with no hash invocation, but the comprehension in app.py
inherits the digest-indexing bug of `compute_embedding`: already the
one-element batch holding the text a raises IndexError instead of
returning one vector. -/
theorem C9_batch_crashes_on_token (digest : PyStr → List Nat)
    (h32 : (digest ['a']).length = 32) :
    app_embeddings digest [['a']] = none ∧ app_embeddings digest [] = some [] := by
  refine ⟨?_, rfl⟩
  have h1 := compute_embedding_err digest ['a'] ['a'] [] (by decide) h32
  simp [app_embeddings, h1]

/-- Witness for C9 at a concrete 32-byte digest function. -/
theorem C9_witness :
    ((fun _ : PyStr => List.replicate 32 0) ['a']).length = 32 ∧
    (app_embeddings (fun _ : PyStr => List.replicate 32 0) [['a']] = none ∧
      app_embeddings (fun _ : PyStr => List.replicate 32 0) [] = some []) :=
  ⟨rfl, C9_batch_crashes_on_token _ rfl⟩

/-- Claim C10: an input made only of whitespace characters splits into
zero tokens, so no hashing occurs, the accumulator stays zero, the
zero-norm branch is taken, and `compute_embedding` returns the
all-zeros vector of length `EMBED_DIM` unchanged. -/
theorem C10_whitespace_only_zero_vector (digest : PyStr → List Nat)
    (text : PyStr) (hws : ∀ c ∈ text, c.isWhitespace = true) :
    compute_embedding digest text = some ⟨List.replicate EMBED_DIM 0, false⟩ :=
  compute_embedding_no_tokens digest text (wordsAux_ws text hws)

/-- Witness for C10 on a space-tab-newline input. -/
theorem C10_witness :
    (∀ c ∈ ([' ', '\t', '\n'] : PyStr), c.isWhitespace = true) ∧
    compute_embedding (fun _ : PyStr => List.replicate 32 0) [' ', '\t', '\n'] =
      some ⟨List.replicate EMBED_DIM 0, false⟩ :=
  ⟨by decide, C10_whitespace_only_zero_vector _ _ (by decide)⟩

/-!
Helper lemmas about the gateway.
-/

/-- Appending a fresh name to an association list where lookup failed
makes that name findable. -/
theorem find?_name_append (l : List (String × Collection)) (name : String)
    (c : Collection) (h : (l.find? fun p => p.1 == name) = none) :
    ((l ++ [(name, c)]).find? fun p => p.1 == name) = some (name, c) := by
  rw [List.find?_append, h]
  simp

/-- Updating the value stored under one name does not change which
names are findable. -/
theorem find?_fst_map_set (l : List (String × Collection)) (name n : String)
    (c : Collection) :
    ((l.map fun p => if p.1 == name then (p.1, c) else p).find?
        fun p => p.1 == n).isSome =
      (l.find? fun p => p.1 == n).isSome := by
  induction l with
  | nil => rfl
  | cons hd tl ih =>
    simp only [List.map_cons, List.find?]
    by_cases hp : (hd.1 == n) = true
    · have hm : ((if hd.1 == name then (hd.1, c) else hd).1 == n) = true := by
        by_cases hq : (hd.1 == name) = true <;> simp [hq, hp]
      rw [hp, hm]
      rfl
    · have hp' : (hd.1 == n) = false := by simpa using hp
      have hm : ((if hd.1 == name then (hd.1, c) else hd).1 == n) = false := by
        by_cases hq : (hd.1 == name) = true <;> simp [hq, hp']
      rw [hp', hm]
      exact ih

/-- After updating the value stored under a findable name, looking the
name up returns the new value. -/
theorem find?_map_set_self (l : List (String × Collection)) (name : String)
    (c : Collection) (h : (l.find? fun p => p.1 == name).isSome = true) :
    ((l.map fun p => if p.1 == name then (p.1, c) else p).find?
        (fun p => p.1 == name)).map Prod.snd = some c := by
  induction l with
  | nil => simp at h
  | cons hd tl ih =>
    simp only [List.map_cons, List.find?]
    by_cases hp : (hd.1 == name) = true
    · simp [hp]
    · have hp' : (hd.1 == name) = false := by simpa using hp
      simp only [hp', Bool.false_eq_true, if_false]
      refine ih ?_
      simpa [List.find?, hp'] using h

/-- `isSome` is unaffected by projecting the stored value out of the
found pair. -/
theorem isSome_map_snd (o : Option (String × Collection)) :
    (o.map Prod.snd).isSome = o.isSome := by
  cases o <;> rfl

/-- A name that lookup cannot find contributes nothing to a filter by
that name. -/
theorem filter_name_nil (l : List (String × Collection)) (name : String)
    (h : (l.find? fun p => p.1 == name) = none) :
    (l.filter fun p => p.1 == name) = [] := by
  rw [List.filter_eq_nil_iff]
  intro a ha
  simpa using List.find?_eq_none.mp h a ha

/-- With pairwise-distinct names, a findable name appears exactly
once. -/
theorem filter_name_one (l : List (String × Collection)) (name : String)
    (hnd : (l.map Prod.fst).Nodup)
    (h : (l.find? fun p => p.1 == name).isSome = true) :
    (l.filter fun p => p.1 == name).length = 1 := by
  induction l with
  | nil => simp at h
  | cons hd tl ih =>
    simp only [List.map_cons, List.nodup_cons] at hnd
    by_cases hp : (hd.1 == name) = true
    · have hname : hd.1 = name := by simpa using hp
      have htl : (tl.filter fun p => p.1 == name) = [] := by
        apply filter_name_nil
        rw [List.find?_eq_none]
        intro a ha hcon
        have ha1 : a.1 = name := by simpa using hcon
        refine hnd.1 ?_
        rw [hname, ← ha1]
        exact List.mem_map_of_mem Prod.fst ha
      simp [List.filter_cons, hp, htl]
    · have hp' : (hd.1 == name) = false := by simpa using hp
      have h' : (tl.find? fun p => p.1 == name).isSome = true := by
        simp only [List.find?] at h
        rw [hp'] at h
        exact h
      simp only [List.filter_cons, hp', Bool.false_eq_true, if_false]
      exact ih hnd.2 h'

/-- Replacing every doc carrying the upserted id leaves that id bound
to the new doc. -/
theorem find?_map_replace_self (ds : List Doc) (d : Doc)
    (h : (ds.any fun e => e.id == d.id) = true) :
    ((ds.map fun e => if e.id == d.id then d else e).find?
      fun e => e.id == d.id) = some d := by
  induction ds with
  | nil => simp at h
  | cons hd tl ih =>
    simp only [List.map_cons, List.find?]
    by_cases hp : (hd.id == d.id) = true
    · have hif : (if (hd.id == d.id) = true then d else hd) = d := by simp [hp]
      have hdd : (d.id == d.id) = true := by simp
      rw [hif, hdd]
    · have hp' : (hd.id == d.id) = false := by simpa using hp
      have hif : (if (hd.id == d.id) = true then d else hd) = hd := by simp [hp']
      rw [hif, hp']
      exact ih (by simpa [hp'] using h)

/-- Replacing docs carrying the upserted id does not affect other
ids. -/
theorem find?_map_replace_other (ds : List Doc) (d : Doc) (i : String)
    (hne : (d.id == i) = false) :
    ((ds.map fun e => if e.id == d.id then d else e).find?
        fun e => e.id == i) =
      ds.find? fun e => e.id == i := by
  induction ds with
  | nil => rfl
  | cons hd tl ih =>
    simp only [List.map_cons, List.find?]
    by_cases hp : (hd.id == d.id) = true
    · have hhd : hd.id = d.id := by simpa using hp
      have hif : (if (hd.id == d.id) = true then d else hd) = d := by simp [hp]
      have h1 : (hd.id == i) = false := by rw [hhd]; exact hne
      rw [hif, hne, h1]
      exact ih
    · have hp' : (hd.id == d.id) = false := by simpa using hp
      have hif : (if (hd.id == d.id) = true then d else hd) = hd := by simp [hp']
      rw [hif]
      by_cases hq : (hd.id == i) = true
      · rw [hq]
      · have hq' : (hd.id == i) = false := by simpa using hq
        rw [hq']
        exact ih

/-- After an upsert the upserted id is bound to the new doc. -/
theorem find?_upsert_self (ds : List Doc) (d : Doc) :
    ((upsertDoc ds d).find? fun e => e.id == d.id) = some d := by
  unfold upsertDoc
  by_cases h : (ds.any fun e => e.id == d.id) = true
  · rw [if_pos h]
    exact find?_map_replace_self ds d h
  · rw [if_neg h]
    have hnone : (ds.find? fun e => e.id == d.id) = none := by
      rw [List.find?_eq_none]
      intro a ha hcon
      exact h (List.any_eq_true.mpr ⟨a, ha, hcon⟩)
    rw [List.find?_append, hnone]
    simp

/-- An upsert does not affect other ids. -/
theorem find?_upsert_other (ds : List Doc) (d : Doc) (i : String)
    (hne : (d.id == i) = false) :
    ((upsertDoc ds d).find? fun e => e.id == i) =
      ds.find? fun e => e.id == i := by
  unfold upsertDoc
  by_cases h : (ds.any fun e => e.id == d.id) = true
  · rw [if_pos h]
    exact find?_map_replace_other ds d i hne
  · rw [if_neg h]
    rw [List.find?_append]
    rcases hf : ds.find? fun e => e.id == i with _ | a
    · rw [hf]
      simp [List.find?, hne]
    · rw [hf]
      rfl

/-- Folding upserts whose ids all differ from `i` leaves `i`'s binding
unchanged. -/
theorem find?_foldl_upsert_other (newDocs : List Doc) (ds : List Doc) (i : String)
    (h : ∀ d ∈ newDocs, (d.id == i) = false) :
    ((newDocs.foldl upsertDoc ds).find? fun e => e.id == i) =
      ds.find? fun e => e.id == i := by
  induction newDocs generalizing ds with
  | nil => rfl
  | cons d rest ih =>
    rw [List.foldl_cons]
    rw [ih (upsertDoc ds d) fun x hx => h x (List.mem_cons_of_mem d hx)]
    exact find?_upsert_other ds d i (h d (List.mem_cons_self d rest))

/-- Folding upserts with pairwise-distinct ids binds each upserted id
to its doc. -/
theorem find?_foldl_upsert_mem (newDocs : List Doc) (ds : List Doc) (d : Doc)
    (hnd : (newDocs.map Doc.id).Nodup) (hmem : d ∈ newDocs) :
    ((newDocs.foldl upsertDoc ds).find? fun e => e.id == d.id) = some d := by
  induction newDocs generalizing ds with
  | nil => cases hmem
  | cons e rest ih =>
    rw [List.foldl_cons]
    simp only [List.map_cons, List.nodup_cons] at hnd
    rcases List.mem_cons.mp hmem with heq | hmem'
    · subst heq
      rw [find?_foldl_upsert_other rest (upsertDoc ds d) d.id ?_]
      · exact find?_upsert_self ds d
      · intro x hx
        cases hb : (x.id == d.id) with
        | false => rfl
        | true =>
          have hx' : x.id = d.id := by simpa using hb
          have hmm : d.id ∈ rest.map Doc.id := by
            rw [← hx']
            exact List.mem_map_of_mem Doc.id hx
          exact (hnd.1 hmm).elim
    · exact ih (upsertDoc ds e) hnd.2 hmem'

/-- The ids of the docs assembled by `buildDocs` are the given ids. -/
theorem buildDocs_map_id : ∀ (ids texts : List String) (metas : List Metadata)
    (embs : Option (List (List ℚ))), ids.length = texts.length →
    ids.length = metas.length →
    (buildDocs ids texts metas embs).map Doc.id = ids := by
  intro ids
  induction ids with
  | nil => intro texts metas embs h1 h2; rfl
  | cons i is ih =>
    intro texts metas embs h1 h2
    cases texts with
    | nil => simp at h1
    | cons t ts =>
      cases metas with
      | nil => simp at h2
      | cons m ms =>
        simp only [buildDocs, List.map_cons, List.cons.injEq]
        exact ⟨trivial, ih ts ms _ (by simpa using h1) (by simpa using h2)⟩

/-- When the metadata list is produced from the ids, each assembled doc
carries the metadata keyed by its own id. -/
theorem buildDocs_meta (f : String → Metadata) :
    ∀ (ids texts : List String) (embs : Option (List (List ℚ))) (d : Doc),
      d ∈ buildDocs ids texts (ids.map f) embs → d.metadata = f d.id := by
  intro ids
  induction ids with
  | nil =>
    intro texts embs d hd
    simp [buildDocs] at hd
  | cons i is ih =>
    intro texts embs d hd
    cases texts with
    | nil => simp [buildDocs] at hd
    | cons t ts =>
      simp only [List.map_cons, buildDocs] at hd
      rcases List.mem_cons.mp hd with heq | h'
      · subst heq; rfl
      · exact ih ts _ d h'

/-- `setCol` does not change which names are present. -/
theorem presentIn_setCol (s : IndexState) (name n : String) (c : Collection) :
    presentIn (setCol s name c) n = presentIn s n := by
  simp only [presentIn, lookupCol, setCol]
  rw [isSome_map_snd, isSome_map_snd]
  exact find?_fst_map_set s.collections name n c

/-- After `setCol` on a present name the stored value is the new
collection. -/
theorem lookupCol_setCol_self (s : IndexState) (name : String) (c : Collection)
    (h : presentIn s name = true) :
    lookupCol (setCol s name c) name = some c := by
  have h' : (s.collections.find? fun p => p.1 == name).isSome = true := by
    simp only [presentIn, lookupCol] at h
    rwa [isSome_map_snd] at h
  simp only [lookupCol, setCol]
  exact find?_map_set_self s.collections name c h'

/-- A freshly appended collection is present and bound to the appended
value. -/
theorem lookupCol_append_self (s : IndexState) (name : String) (c : Collection)
    (b : Bool) (h : lookupCol s name = none) :
    lookupCol ⟨s.collections ++ [(name, c)], b⟩ name = some c := by
  have hf : (s.collections.find? fun p => p.1 == name) = none :=
    Option.map_eq_none'.mp h
  simp only [lookupCol]
  rw [find?_name_append s.collections name c hf]
  rfl

/-- Present names stay present, bound to the same value, after
appending a fresh pair. -/
theorem lookupCol_append_other (s : IndexState) (name n : String)
    (c c0 : Collection) (b : Bool) (h : lookupCol s n = some c0) :
    lookupCol ⟨s.collections ++ [(name, c)], b⟩ n = some c0 := by
  have hf : ∃ p, (s.collections.find? fun q => q.1 == n) = some p ∧ p.2 = c0 := by
    simp only [lookupCol] at h
    rcases hq : s.collections.find? fun q => q.1 == n with _ | p
    · rw [hq] at h; cases h
    · rw [hq] at h
      exact ⟨p, hq, by simpa using h⟩
  obtain ⟨p, hp, hpc⟩ := hf
  simp only [lookupCol]
  rw [List.find?_append, hp]
  simp [hpc]

/-- A reachable get-or-create succeeds, leaves the name present and
bound to the returned handle, keeps reachability, and preserves every
existing binding. -/
theorem presentIn_gocState (s : IndexState) (name : String) (md : Metadata)
    (hr : s.reachable = true) :
    ∃ c s', getOrCreateCollection s name md = .ok (c, s') ∧
      lookupCol s' name = some c ∧ s'.reachable = true ∧
      ∀ n c0, lookupCol s n = some c0 → lookupCol s' n = some c0 := by
  rcases hl : lookupCol s name with _ | c
  · refine ⟨⟨md, []⟩, ⟨s.collections ++ [(name, ⟨md, []⟩)], s.reachable⟩,
      ?_, ?_, hr, ?_⟩
    · simp [getOrCreateCollection, hr, hl]
    · exact lookupCol_append_self s name _ _ hl
    · intro n c0 h0
      exact lookupCol_append_other s name n _ c0 _ h0
  · exact ⟨c, s, by simp [getOrCreateCollection, hr, hl], hl, hr,
      fun n c0 h0 => h0⟩

/-!
Claims about the gateway.
-/

/-- Claim C5 (amended): over a reachable index, the gateway's
collection state machine is — `collection_exists` and
`collection_count` never change the state, `collection_exists` reports
absence as a plain exists-false result while `collection_count`
hard-errors on an absent collection; `collection_create`,
`collection_add`, `collection_delete_docs` and `collection_query`
leave the named collection present (get-or-create semantics);
`collection_delete` hard-errors on an absent collection, leaving the
state unchanged, and is the only operation taking a present collection
to absent. -/
theorem C5_state_machine (s : IndexState) (name : String) (req : AddReq)
    (ids : List String) (q : QueryReq) (hr : s.reachable = true) :
    GatewayStateMachine s name req ids q := by
  obtain ⟨c, s', hoc, hlook, hr', hpre⟩ :=
    presentIn_gocState s name DEFAULT_COLLECTION_METADATA hr
  refine ⟨?_, ?_, ?_, ?_, ?_, ?_, ?_, ?_, ?_⟩
  · rcases hl : lookupCol s name with _ | c0 <;>
      simp [collection_exists, getCollection, hr, hl]
  · rcases hl : lookupCol s name with _ | c0 <;>
      simp [collection_count, getCollection, hr, hl]
  · intro h
    rcases hl : lookupCol s name with _ | c0
    · simp [collection_count, getCollection, hr, hl, isHardError]
    · simp [presentIn, hl] at h
  · simp [collection_create, hoc, presentIn, hlook]
  · rcases hca : colAdd c req.ids req.documents
        (match req.metadatas with
         | none => req.ids.map fun i => [("id", MVal.s i)]
         | some ms => ms)
        req.embeddings with e | c'
    · simp [collection_add, hoc, hca, presentIn, hlook]
    · have hp : presentIn s' name = true := by simp [presentIn, hlook]
      simp only [collection_add, hoc, hca]
      simp only [presentIn]
      rw [lookupCol_setCol_self s' name c' hp]
      rfl
  · have hp : presentIn s' name = true := by simp [presentIn, hlook]
    simp only [collection_delete_docs, hoc]
    simp only [presentIn]
    rw [lookupCol_setCol_self s' name (colDelete c ids) hp]
    rfl
  · rcases hq : colQuery c q with e | u
    · simp [collection_query, hoc, hq, presentIn, hlook]
    · simp [collection_query, hoc, hq, presentIn, hlook]
  · intro h
    have hl : lookupCol s name = none := by
      rcases hq : lookupCol s name with _ | c0
      · rfl
      · simp [presentIn, hq] at h
    constructor <;>
      simp [collection_delete, deleteCollectionIdx, hr, presentIn, hl, isHardError]
  · intro h
    simp only [collection_delete, deleteCollectionIdx, hr, if_true, h]
    have hfil : ((s.collections.filter fun p => p.1 != name).find?
        fun p => p.1 == name) = none := by
      rw [List.find?_eq_none]
      intro a ha hcon
      have hmem := List.mem_filter.mp ha
      have h2 : a.1 = name := by simpa using hcon
      have h1 := hmem.2
      simp [h2] at h1
    simp only [presentIn, lookupCol]
    rw [hfil]
    rfl

/-- Witness for C5 at the empty reachable index with concrete request
bodies. -/
theorem C5_witness :
    (⟨[], true⟩ : IndexState).reachable = true ∧
    GatewayStateMachine ⟨[], true⟩ "docs" ⟨[], [], none, none⟩ []
      ⟨none, none, 5⟩ :=
  ⟨rfl, C5_state_machine _ _ _ _ _ rfl⟩

/-- Claim C5 counterexample: `collection_exists` accepts a collection
name and is neither `collection_count` nor `collection_delete`, yet on
an absent name it neither creates the collection nor signals a hard
error — it reports exists-false and leaves the state unchanged, so the
claimed exception list is incomplete. -/
theorem C5_counterexample :
    presentIn (collection_exists ⟨[], true⟩ "docs").2 "docs" = false ∧
    (collection_exists ⟨[], true⟩ "docs").1.exists' = false :=
  ⟨rfl, rfl⟩

/-- Claim C6: `collection_create` is idempotent — with a reachable
index holding pairwise-distinct names, two consecutive creates both
report created with no error, the second call leaves the first call's
state unchanged, exactly one collection of the name remains, and a
newly created collection carries the default collection metadata. -/
theorem C6_create_idempotent (s : IndexState) (name : String)
    (hr : s.reachable = true) (hnd : (s.collections.map Prod.fst).Nodup) :
    CreateIdempotent s name := by
  rcases hl : lookupCol s name with _ | c
  · have hoc1 : getOrCreateCollection s name DEFAULT_COLLECTION_METADATA =
        .ok (⟨DEFAULT_COLLECTION_METADATA, []⟩,
          ⟨s.collections ++ [(name, ⟨DEFAULT_COLLECTION_METADATA, []⟩)],
            true⟩) := by
      simp [getOrCreateCollection, hr, hl]
    have hl1 : lookupCol
        ⟨s.collections ++ [(name, ⟨DEFAULT_COLLECTION_METADATA, []⟩)],
          true⟩ name = some ⟨DEFAULT_COLLECTION_METADATA, []⟩ :=
      lookupCol_append_self s name _ _ hl
    have hoc2 : getOrCreateCollection
        ⟨s.collections ++ [(name, ⟨DEFAULT_COLLECTION_METADATA, []⟩)],
          true⟩ name DEFAULT_COLLECTION_METADATA =
        .ok (⟨DEFAULT_COLLECTION_METADATA, []⟩,
          ⟨s.collections ++ [(name, ⟨DEFAULT_COLLECTION_METADATA, []⟩)],
            true⟩) := by
      simp [getOrCreateCollection, hl1]
    refine ⟨?_, ?_, ?_, ?_, ?_⟩
    · simp [collection_create, hoc1]
    · simp [collection_create, hoc1, hoc2]
    · simp [collection_create, hoc1, hoc2]
    · simp only [collection_create, hoc1, hoc2]
      simp only [countName]
      rw [List.filter_append]
      rw [filter_name_nil s.collections name (Option.map_eq_none'.mp hl)]
      simp
    · intro _
      simp [collection_create, hoc1, hl1]
  · have hoc : getOrCreateCollection s name DEFAULT_COLLECTION_METADATA =
        .ok (c, s) := by
      simp [getOrCreateCollection, hr, hl]
    have hfind : (s.collections.find? fun p => p.1 == name).isSome = true := by
      have h' := hl
      simp only [lookupCol] at h'
      rcases hq : s.collections.find? fun p => p.1 == name with _ | p
      · rw [hq] at h'; cases h'
      · rw [hq]; rfl
    refine ⟨?_, ?_, ?_, ?_, ?_⟩
    · simp [collection_create, hoc]
    · simp [collection_create, hoc]
    · simp [collection_create, hoc]
    · simp only [collection_create, hoc]
      exact filter_name_one s.collections name hnd hfind
    · intro habs
      simp [presentIn, hl] at habs

/-- Witness for C6 at the empty reachable index. -/
theorem C6_witness :
    ((⟨[], true⟩ : IndexState).reachable = true ∧
      ((⟨[], true⟩ : IndexState).collections.map Prod.fst).Nodup) ∧
    CreateIdempotent ⟨[], true⟩ "docs" :=
  ⟨⟨rfl, List.nodup_nil⟩, C6_create_idempotent _ _ rfl List.nodup_nil⟩

/-- Claim C7: with `metadatas` omitted, a reachable index, id and
document lists of equal length, and ids unique within the call,
`collection_add` succeeds reporting the requested count and persists
each document of the call with the synthesized one-entry metadata
mapping keyed by that document's own id. -/
theorem C7_add_default_metadata (s : IndexState) (name : String)
    (ids texts : List String) (hr : s.reachable = true)
    (hlen : ids.length = texts.length) (hnd : ids.Nodup) :
    AddDefaultMetadata s name ids texts := by
  obtain ⟨c, s', hoc, hlook, hr', hpre⟩ :=
    presentIn_gocState s name DEFAULT_COLLECTION_METADATA hr
  have hp : presentIn s' name = true := by simp [presentIn, hlook]
  have hca : colAdd c ids texts (ids.map fun i => [("id", MVal.s i)]) none =
      .ok ⟨c.metadata,
        (buildDocs ids texts (ids.map fun i => [("id", MVal.s i)]) none).foldl
          upsertDoc c.docs⟩ := by
    unfold colAdd
    rw [if_pos]
    exact ⟨hlen, by simp, trivial, hnd⟩
  constructor
  · simp [collection_add, hoc, hca]
  · intro i hi
    have hids : (buildDocs ids texts (ids.map fun i => [("id", MVal.s i)])
        none).map Doc.id = ids :=
      buildDocs_map_id ids texts _ none hlen (by simp)
    have hmem : ∃ d, d ∈ buildDocs ids texts
        (ids.map fun i => [("id", MVal.s i)]) none ∧ d.id = i := by
      have hmap : i ∈ (buildDocs ids texts
          (ids.map fun i => [("id", MVal.s i)]) none).map Doc.id := by
        rw [hids]; exact hi
      rcases List.mem_map.mp hmap with ⟨d, hd, hdi⟩
      exact ⟨d, hd, hdi⟩
    obtain ⟨d, hdmem, hdid⟩ := hmem
    have hset : lookupCol (setCol s' name ⟨c.metadata,
        (buildDocs ids texts (ids.map fun i => [("id", MVal.s i)]) none).foldl
          upsertDoc c.docs⟩) name =
        some ⟨c.metadata,
          (buildDocs ids texts (ids.map fun i => [("id", MVal.s i)]) none).foldl
            upsertDoc c.docs⟩ :=
      lookupCol_setCol_self s' name _ hp
    refine ⟨d, ?_, hdid, ?_⟩
    · simp only [collection_add, hoc, hca, findDocIn, hset]
      have hfind := find?_foldl_upsert_mem _ c.docs d
        (by rw [hids]; exact hnd) hdmem
      rw [hdid] at hfind
      exact hfind
    · have hmeta := buildDocs_meta (fun j => [("id", MVal.s j)]) ids texts
        none d hdmem
      rw [hdid] at hmeta
      exact hmeta

/-- Witness for C7 at the empty reachable index with two documents. -/
theorem C7_witness :
    ((⟨[], true⟩ : IndexState).reachable = true ∧
      (["a", "b"] : List String).length = (["cat", "dog"] : List String).length ∧
      (["a", "b"] : List String).Nodup) ∧
    AddDefaultMetadata ⟨[], true⟩ "docs" ["a", "b"] ["cat", "dog"] :=
  ⟨⟨rfl, rfl, by decide⟩, C7_add_default_metadata _ _ _ _ rfl rfl (by decide)⟩

/-- Claim C8: `collection_delete_docs` is total and echoes the
requested count — for every state, name and id list, absent ids
included, the response carries the length of the requested id list
with no error when the index is reachable, and an underlying-index
failure is converted into a zero count plus a diagnostic message
instead of being raised. -/
theorem C8_delete_docs_requested_count (s : IndexState) (name : String)
    (ids : List String) :
    (collection_delete_docs s name ids).1 =
      if s.reachable then ⟨ids.length, none⟩
      else ⟨0, some "index unreachable"⟩ := by
  by_cases hr : s.reachable = true
  · obtain ⟨c, s', hoc, hlook, hr', hpre⟩ :=
      presentIn_gocState s name DEFAULT_COLLECTION_METADATA hr
    simp [collection_delete_docs, hoc, hr]
  · have hr' : s.reachable = false := by simpa using hr
    simp [collection_delete_docs, getOrCreateCollection, hr']
